import Mathlib

/-!
Verification of the curvature-constrained spline core of the CCS repository
(`src/ccs/spline_functions.py`). Real arithmetic is embedded exactly as
rational arithmetic; numpy arrays become lists of rationals; Python
exceptions become `Except` values; Python's negative list indexing is
modelled explicitly.
-/

namespace CCS

/-- Model of `np.around(q, decimals = 5)` restricted to the rounding step:
round-half-to-even of `q * 10^5`, as numpy's rounding rule prescribes. -/
def roundHalfEven (q : ℚ) : ℤ :=
  if q - (⌊q⌋ : ℚ) < 1/2 then ⌊q⌋
  else if 1/2 < q - (⌊q⌋ : ℚ) then ⌊q⌋ + 1
  else if ⌊q⌋ % 2 = 0 then ⌊q⌋ else ⌊q⌋ + 1

/-- Model of `np.around(q, decimals = 5)`: round `q` to 5 decimal places. -/
def around5 (q : ℚ) : ℚ := (roundHalfEven (q * 100000) : ℚ) / 100000

/-! ## spline_construction (src/ccs/spline_functions.py lines 12-57) -/

/-- Entry `(i, j)` of `C` after `np.fill_diagonal(C, 1, wrap=True)` on the
`rows × cols` zero matrix (with `rows < cols` the wrap never fires:
ones exactly on the main diagonal). -/
def Cfill (i j : ℕ) : ℚ := if i = j then 1 else 0

/-- Entry `(i, j)` of `C = np.roll(C, 1, axis=1)`: column `j` takes the old
column `(j - 1) mod cols`. -/
def Centry (cols i j : ℕ) : ℚ := Cfill i ((j + cols - 1) % cols)

/-- Entry `(i, j)` of `D`: `-1` on the diagonal (`D[i == j] = -1`), `+1` on
the first super-diagonal (`D[i == j - 1] = 1`), then `D = D / dx`. -/
def Dentry (dx : ℚ) (i j : ℕ) : ℚ :=
  (if i = j then -1 else if j = i + 1 then 1 else 0) / dx

/-- Entry `(i, j)` of `B` before the row shift: the masks
`B[i == j] = -0.5`, `B[i < j] = -1`, `B[j == cols-1] = -0.5` are applied in
that order, later assignments overwriting earlier ones. -/
def Braw (cols i j : ℕ) : ℚ :=
  if j = cols - 1 then -(1/2)
  else if i < j then -1
  else if i = j then -(1/2)
  else 0

/-- Entry `(i, j)` of the final `B`: `np.delete(B, 0, 0)` drops the first
row, `np.vstack` appends a zero row, then `B = B * dx`. -/
def Bentry (rows cols : ℕ) (dx : ℚ) (i j : ℕ) : ℚ :=
  (if i + 1 < rows then Braw cols (i + 1) j else 0) * dx

/-- Entry `(row, col)` of `A` before the row shift, from the descending
loop: the last column holds `1/3 + (rows - 1 - row)/2` (the accumulator
`tmp` starts at `1/3` and gains `0.5` per descending row), the diagonal
holds `1/6`, entries strictly above the diagonal hold `col - row`. -/
def Araw (rows cols row col : ℕ) : ℚ :=
  if col = cols - 1 then 1/3 + ((rows - 1 - row : ℕ) : ℚ) / 2
  else if row = col then 1/6
  else if row < col then ((col - row : ℕ) : ℚ)
  else 0

/-- Entry `(i, j)` of the final `A`: `np.delete(A, 0, 0)` drops the first
row, a zero row is appended, then `A = A * dx * dx`. -/
def Aentry (rows cols : ℕ) (dx : ℚ) (i j : ℕ) : ℚ :=
  (if i + 1 < rows then Araw rows cols (i + 1) j else 0) * dx * dx

/-- Materialize a `rows × cols` matrix of rationals from its entry map. -/
def mkMat (rows cols : ℕ) (f : ℕ → ℕ → ℚ) : List (List ℚ) :=
  (List.range rows).map fun i => (List.range cols).map fun j => f i j

/-- Model of `spline_construction(rows, cols, dx)`: returns `(C, D, B, A)`. -/
def spline_construction (rows cols : ℕ) (dx : ℚ) :
    List (List ℚ) × List (List ℚ) × List (List ℚ) × List (List ℚ) :=
  (mkMat rows cols (Centry cols),
   mkMat rows cols (Dentry dx),
   mkMat rows cols (Bentry rows cols dx),
   mkMat rows cols (Aentry rows cols dx))

/-! ## spline_eval012 (src/ccs/spline_functions.py lines 60-94) -/

/-- Segment index resolution of `spline_eval012`: `index = 1` when
`r == Rmin`, else `int(np.ceil((r - Rmin) / dx))` — note the source has no
decimal rounding here. -/
def evalIndex (Rmin dx r : ℚ) : ℤ :=
  if r = Rmin then 1 else ⌈(r - Rmin) / dx⌉

/-- Model of `spline_eval012`: coefficient arrays and the knot sequence are
total maps (the claims assume well-sized arrays); the sole error path is
the `ValueError` raised when the resolved index is `< 1`. -/
def spline_eval012 (a b c d : ℕ → ℚ) (r Rcut Rmin dx : ℚ) (x : ℕ → ℚ) :
    Except String (ℚ × ℚ × ℚ) :=
  let index := evalIndex Rmin dx r
  if 1 ≤ index then
    let i := index.toNat
    let dr := r - x i
    Except.ok
      (a (i - 1) + dr * (b (i - 1) + dr * ((1/2) * c (i - 1) + d (i - 1) * dr / 3)),
       b (i - 1) + dr * (c (i - 1) + (1/2) * d (i - 1) * dr),
       c (i - 1) + d (i - 1) * dr)
  else Except.error " r < Rmin"

/-! ## spline_energy_model (src/ccs/spline_functions.py lines 97-134) -/

/-- Python list indexing on matrix rows: a negative index `i` selects row
`len + i` from the end (e.g. `A[-1]` is the appended zero last row). -/
def pyRow (m : List (List ℚ)) (i : ℤ) : List ℚ :=
  if 0 ≤ i then m.getD i.toNat [] else m.getD (m.length - (-i).toNat) []

/-- Python list indexing on the knot sequence. -/
def pyAt (x : List ℚ) (i : ℤ) : ℚ :=
  if 0 ≤ i then x.getD i.toNat 0 else x.getD (x.length - (-i).toNat) 0

/-- Segment index resolution of `spline_energy_model`:
`int(np.ceil(np.around((r - Rmin) / dx, decimals=5)))`.  Rational
division makes this total; at `dx = 0` the source instead raises through
`0.0/0.0` (nan, then `int` conversion), an error path modelled where it
arises, at the `get_v` call inside `Twobody.init`. -/
def emIndex (Rmin dx r : ℚ) : ℤ := ⌈around5 ((r - Rmin) / dx)⌉

/-- Elementwise sum of two numpy vectors (all operands share length
`cols` in the source). -/
def vecAdd (u w : List ℚ) : List ℚ := List.zipWith (· + ·) u w

/-- The all-zero vector of length `n`. -/
def zeroVec (n : ℕ) : List ℚ := List.replicate n 0

/-- One pair distance's contribution
`A[index-1] + B[index-1]*delta + C[index-1]*delta^2/2 + D[index-1]*delta^3/6`
accumulated by `spline_energy_model` for a surviving distance `r`. -/
def contribution (A B C D : List (List ℚ)) (x : List ℚ) (Rmin dx r : ℚ) :
    List ℚ :=
  let index := emIndex Rmin dx r
  let delta := r - pyAt x index
  let a := pyRow A (index - 1)
  let b := (pyRow B (index - 1)).map fun q => q * delta
  let d := (pyRow D (index - 1)).map fun q => q * delta ^ 3 / 6
  let c_d := (pyRow C (index - 1)).map fun q => q * delta ^ 2 / 2
  vecAdd (vecAdd (vecAdd a b) c_d) d

/-- The filter `[i for i in df[config, :] if i <= Rcut and i >= Rmin]`. -/
def qualifying (Rcut Rmin : ℚ) (l : List ℚ) : List ℚ :=
  l.filter fun i => decide (i ≤ Rcut) && decide (Rmin ≤ i)

/-- One configuration's design-matrix row: the accumulator `u` starts at
zero and adds every surviving distance's contribution (the scalar `0` of
the source broadcasts to the zero row on first addition). -/
def configRow (Rcut Rmin : ℚ) (A B C D : List (List ℚ)) (x : List ℚ)
    (dx : ℚ) (cols : ℕ) (l : List ℚ) : List ℚ :=
  (qualifying Rcut Rmin l).foldl
    (fun u r => vecAdd u (contribution A B C D x Rmin dx r)) (zeroVec cols)

/-- Model of `spline_energy_model(Rcut, Rmin, df, cols, dx, size, x)`:
builds `(C, D, B, A) = spline_construction(cols - 1, cols, dx)` and one
row per configuration. -/
def spline_energy_model (Rcut Rmin : ℚ) (df : List (List ℚ)) (cols : ℕ)
    (dx : ℚ) (size : ℕ) (x : List ℚ) : List (List ℚ) :=
  let M := spline_construction (cols - 1) cols dx
  (List.range size).map fun config =>
    configRow Rcut Rmin M.2.2.2 M.2.2.1 M.1 M.2.1 x dx cols (df.getD config [])

/-! ## Twobody (src/ccs/spline_functions.py lines 175-222) -/

/-- Model of `np.linspace(start, stop, num)`: `num` evenly spaced points
inclusive of both endpoints. -/
def linspace (start stop : ℚ) (num : ℕ) : List ℚ :=
  (List.range num).map fun i : ℕ =>
    start + (i : ℚ) * ((stop - start) / ((num : ℚ) - 1))

/-- The `Twobody` entity with all fields assigned by `__init__`. -/
structure Twobody where
  name : String
  Rcut : ℚ
  Rmin : ℚ
  Nknots : ℤ
  Nswitch : Option ℤ
  Dismat : List (List ℚ)
  Nconfigs : ℕ
  dx : ℚ
  cols : ℕ
  interval : List ℚ
  C : List (List ℚ)
  D : List (List ℚ)
  B : List (List ℚ)
  A : List (List ℚ)
  v : List (List ℚ)
deriving Repr, DecidableEq

/-- Derived fields exactly as `Twobody.__init__` computes them once the
arithmetic is defined (`Nknots ≥ 1`). -/
def Twobody.make (name : String) (Dismat : List (List ℚ)) (Nconfigs : ℕ)
    (Rcut : ℚ) (Nknots : ℤ) (Rmin : ℚ) (Nswitch : Option ℤ) : Twobody :=
  let dx := (Rcut - Rmin) / (Nknots : ℚ)
  let cols := (Nknots + 1).toNat
  let interval := linspace Rmin Rcut cols
  let M := spline_construction (cols - 1) cols dx
  { name := name, Rcut := Rcut, Rmin := Rmin, Nknots := Nknots,
    Nswitch := Nswitch, Dismat := Dismat, Nconfigs := Nconfigs,
    dx := dx, cols := cols, interval := interval,
    C := M.1, D := M.2.1, B := M.2.2.1, A := M.2.2.2,
    v := spline_energy_model Rcut Rmin Dismat cols dx Nconfigs interval }

/-- Model of `Twobody.__init__`: the source performs no parameter
validation; its only failures are the Python errors its statements
incidentally raise, in execution order — `ZeroDivisionError` from
`(Rcut - Rmin) / Nknots` when `Nknots = 0`; numpy's negative-dimension
`ValueError` (from `linspace` or `spline_construction`) when
`Nknots < 0`; and, when `Rcut = Rmin` (so `dx = 0`) while some
configuration holds a distance exactly equal to `Rmin` (the only value
passing the filter `Rmin <= r <= Rcut` then), the `0.0/0.0` at index
resolution inside `get_v` — nan, then `int(np.ceil(nan))` raises (a
`ZeroDivisionError` instead for plain Python floats). -/
def Twobody.init (name : String) (Dismat : List (List ℚ)) (Nconfigs : ℕ)
    (Rcut : ℚ) (Nknots : ℤ) (Rmin : ℚ) (Nswitch : Option ℤ) :
    Except String Twobody :=
  if Nknots = 0 then
    Except.error "ZeroDivisionError: division by zero"
  else if Nknots < 0 then
    Except.error "ValueError: negative dimensions are not allowed"
  else if Rcut = Rmin ∧ ∃ c ∈ List.range Nconfigs, Rmin ∈ Dismat.getD c [] then
    Except.error "ValueError: cannot convert float NaN to integer"
  else
    Except.ok (Twobody.make name Dismat Nconfigs Rcut Nknots Rmin Nswitch)

/-- Boolean success test for a modelled Python computation. -/
def isOkE {ε α : Type} : Except ε α → Bool
  | Except.ok _ => true
  | Except.error _ => false

/-- Resolution rule as the spec words it for the evaluator, for comparison
with `evalIndex`: the quotient is rounded to 5 decimal places before the
ceiling.  The source of `spline_eval012` performs no such rounding. -/
def evalIndexSpec (Rmin dx r : ℚ) : ℤ :=
  if r = Rmin then 1 else ⌈around5 ((r - Rmin) / dx)⌉

/-! ## Helper lemmas: rounding -/

theorem floor_le_roundHalfEven (q : ℚ) : ⌊q⌋ ≤ roundHalfEven q := by
  unfold roundHalfEven
  split_ifs <;> omega

theorem roundHalfEven_le_ceil (q : ℚ) : roundHalfEven q ≤ ⌈q⌉ := by
  unfold roundHalfEven
  split_ifs with h1 h2 h3
  · exact Int.floor_le_ceil q
  · have : (⌊q⌋ : ℚ) < q := by linarith
    have := Int.lt_ceil.mpr this
    omega
  · exact Int.floor_le_ceil q
  · have h2' : (1 : ℚ) / 2 ≤ q - ⌊q⌋ := le_of_not_lt h1
    have : (⌊q⌋ : ℚ) < q := by linarith
    have := Int.lt_ceil.mpr this
    omega

theorem around5_nonneg (q : ℚ) (h : 0 ≤ q) : 0 ≤ around5 q := by
  unfold around5
  have h1 : (0 : ℤ) ≤ ⌊q * 100000⌋ := Int.floor_nonneg.mpr (by positivity)
  have h2 := floor_le_roundHalfEven (q * 100000)
  have : (0 : ℚ) ≤ (roundHalfEven (q * 100000) : ℚ) := by exact_mod_cast le_trans h1 h2
  positivity

theorem around5_le_intCast (q : ℚ) (z : ℤ) (h : q ≤ (z : ℚ)) :
    around5 q ≤ (z : ℚ) := by
  unfold around5
  have h1 : q * 100000 ≤ ((z * 100000 : ℤ) : ℚ) := by push_cast; nlinarith
  have h2 : ⌈q * 100000⌉ ≤ z * 100000 := Int.ceil_le.mpr h1
  have h3 : roundHalfEven (q * 100000) ≤ z * 100000 :=
    le_trans (roundHalfEven_le_ceil _) h2
  have h4 : (roundHalfEven (q * 100000) : ℚ) ≤ ((z * 100000 : ℤ) : ℚ) := by
    exact_mod_cast h3
  have h5 : ((z * 100000 : ℤ) : ℚ) / 100000 = (z : ℚ) := by
    push_cast
    field_simp
  calc (roundHalfEven (q * 100000) : ℚ) / 100000
      ≤ ((z * 100000 : ℤ) : ℚ) / 100000 := by
        apply div_le_div_of_nonneg_right h4 <;> norm_num
    _ = (z : ℚ) := h5

theorem ceil_via_floor (q : ℚ) : ⌈q⌉ = -⌊-q⌋ := by
  rw [Int.floor_neg, neg_neg]

theorem around5_intCast (z : ℤ) : around5 (z : ℚ) = (z : ℚ) := by
  unfold around5 roundHalfEven
  have h1 : (z : ℚ) * 100000 = ((z * 100000 : ℤ) : ℚ) := by push_cast; ring
  rw [h1, Int.floor_intCast]
  norm_num

/-! ## Helper lemmas: segment index resolution -/

theorem emIndex_at_Rmin (Rmin dx : ℚ) : emIndex Rmin dx Rmin = 0 := by
  unfold emIndex
  rw [sub_self, zero_div]
  have : around5 (0 : ℚ) = ((0 : ℤ) : ℚ) := by
    rw [show ((0 : ℚ)) = ((0 : ℤ) : ℚ) by norm_num] at *
    exact around5_intCast 0
  rw [this, Int.ceil_intCast]

theorem emIndex_at_knot (Rmin dx : ℚ) (k : ℕ) (hdx : dx ≠ 0) :
    emIndex Rmin dx (Rmin + (k : ℚ) * dx) = (k : ℤ) := by
  unfold emIndex
  rw [add_sub_cancel_left, mul_div_cancel_right₀ _ hdx]
  rw [show ((k : ℚ)) = ((k : ℤ) : ℚ) by push_cast; ring, around5_intCast,
    Int.ceil_intCast]

theorem emIndex_nonneg (Rmin dx r : ℚ) (hdx : 0 < dx) (hr : Rmin ≤ r) :
    0 ≤ emIndex Rmin dx r := by
  unfold emIndex
  have h1 : (0 : ℚ) ≤ (r - Rmin) / dx :=
    div_nonneg (by linarith) (le_of_lt hdx)
  have h2 := around5_nonneg _ h1
  exact Int.ceil_nonneg h2

theorem emIndex_le (Rmin dx r : ℚ) (N : ℕ) (hdx : 0 < dx)
    (hr : r - Rmin ≤ (N : ℚ) * dx) : emIndex Rmin dx r ≤ (N : ℤ) := by
  unfold emIndex
  have h1 : (r - Rmin) / dx ≤ (N : ℚ) := by
    rw [div_le_iff hdx]
    linarith
  have h2 : around5 ((r - Rmin) / dx) ≤ ((N : ℤ) : ℚ) := by
    apply around5_le_intCast
    exact_mod_cast h1
  exact Int.ceil_le.mpr h2

theorem evalIndex_at_knot (Rmin dx : ℚ) (k : ℕ) (hdx : 0 < dx)
    (hk : 1 ≤ k) : evalIndex Rmin dx (Rmin + (k : ℚ) * dx) = (k : ℤ) := by
  unfold evalIndex
  have hkpos : (0 : ℚ) < (k : ℚ) * dx := by
    have : (0 : ℚ) < (k : ℚ) := by exact_mod_cast hk
    positivity
  rw [if_neg (by intro h; rw [add_right_eq_self] at h; linarith)]
  rw [add_sub_cancel_left, mul_div_cancel_right₀ _ (ne_of_gt hdx),
    Int.ceil_natCast]

/-! ## Helper lemmas: matrices and vectors -/

theorem mkMat_length (rows cols : ℕ) (f : ℕ → ℕ → ℚ) :
    (mkMat rows cols f).length = rows := by
  simp [mkMat]

theorem mkMat_getD (rows cols : ℕ) (f : ℕ → ℕ → ℚ) (i : ℕ) (h : i < rows) :
    (mkMat rows cols f).getD i [] = (List.range cols).map (f i) := by
  unfold mkMat
  rw [List.getD_eq_getElem?_getD, List.getElem?_map, List.getElem?_range h]
  rfl

theorem pyRow_neg_one (rows cols : ℕ) (f : ℕ → ℕ → ℚ) (h : 1 ≤ rows) :
    pyRow (mkMat rows cols f) (-1) = (List.range cols).map (f (rows - 1)) := by
  unfold pyRow
  rw [if_neg (by norm_num), mkMat_length]
  exact mkMat_getD rows cols f (rows - 1) (by omega)

theorem pyRow_natCast (rows cols : ℕ) (f : ℕ → ℕ → ℚ) (i : ℕ) (h : i < rows) :
    pyRow (mkMat rows cols f) (i : ℤ) = (List.range cols).map (f i) := by
  unfold pyRow
  rw [if_pos (Int.natCast_nonneg i), Int.toNat_natCast]
  exact mkMat_getD rows cols f i h

theorem map_const_range {α : Type} (n : ℕ) (q : α) :
    (List.range n).map (fun _ => q) = List.replicate n q := by
  induction n with
  | zero => rfl
  | succ m ih =>
    rw [List.range_succ, List.map_append, ih]
    simp [List.replicate_succ']

theorem vecAdd_length (u w : List ℚ) :
    (vecAdd u w).length = min u.length w.length := by
  simp [vecAdd]

theorem vecAdd_zeroVec_right (u : List ℚ) : vecAdd u (zeroVec u.length) = u := by
  induction u with
  | nil => rfl
  | cons a l ih =>
    simp only [zeroVec, List.length_cons, List.replicate_succ] at *
    simp only [vecAdd, List.zipWith_cons_cons, add_zero] at *
    rw [show List.zipWith (· + ·) l (List.replicate l.length 0) = l from ih]

theorem vecAdd_zeroVec_of_length (u : List ℚ) (n : ℕ) (h : u.length = n) :
    vecAdd u (zeroVec n) = u := by
  rw [← h]; exact vecAdd_zeroVec_right u

theorem vecAdd_zeroVec_zeroVec (n : ℕ) :
    vecAdd (zeroVec n) (zeroVec n) = zeroVec n :=
  vecAdd_zeroVec_of_length (zeroVec n) n (by simp [zeroVec])

theorem map_fun_zero (l : List ℚ) :
    l.map (fun _ => (0 : ℚ)) = List.replicate l.length 0 := by
  induction l with
  | nil => rfl
  | cons a t ih => simp [ih, List.replicate_succ]

theorem pyRow_length (rows cols : ℕ) (f : ℕ → ℕ → ℚ) (i : ℤ)
    (hneg : -1 ≤ i) (hlt : i < (rows : ℤ)) (hrows : 1 ≤ rows) :
    (pyRow (mkMat rows cols f) i).length = cols := by
  rcases le_or_lt 0 i with h | h
  · have hnat : i.toNat < rows := by omega
    rw [show i = (i.toNat : ℤ) from (Int.toNat_of_nonneg h).symm,
      pyRow_natCast rows cols f i.toNat hnat]
    simp
  · have hi : i = -1 := by omega
    rw [hi, pyRow_neg_one rows cols f hrows]
    simp

/-- The appended last row of the final `A` is identically zero. -/
theorem Aentry_last (cols : ℕ) (dx : ℚ) (hc : 2 ≤ cols) (j : ℕ) :
    Aentry (cols - 1) cols dx (cols - 2) j = 0 := by
  unfold Aentry
  rw [if_neg (by omega)]
  ring

/-- The appended last row of the final `B` is identically zero. -/
theorem Bentry_last (cols : ℕ) (dx : ℚ) (hc : 2 ≤ cols) (j : ℕ) :
    Bentry (cols - 1) cols dx (cols - 2) j = 0 := by
  unfold Bentry
  rw [if_neg (by omega)]
  ring

/-- Row `-1` (Python negative indexing) and row `cols - 2` of the final `A`
both select the appended all-zero row. -/
theorem pyRow_A_boundary (cols : ℕ) (dx : ℚ) (hc : 2 ≤ cols) (i : ℤ)
    (hi : i = -1 ∨ i = (cols : ℤ) - 2) :
    pyRow (mkMat (cols - 1) cols (Aentry (cols - 1) cols dx)) i =
      List.replicate cols 0 := by
  have hrow : pyRow (mkMat (cols - 1) cols (Aentry (cols - 1) cols dx)) i =
      (List.range cols).map (Aentry (cols - 1) cols dx (cols - 2)) := by
    rcases hi with hi | hi
    · rw [hi, pyRow_neg_one _ _ _ (by omega),
        show cols - 1 - 1 = cols - 2 by omega]
    · rw [hi, show (cols : ℤ) - 2 = ((cols - 2 : ℕ) : ℤ) by omega,
        pyRow_natCast _ _ _ _ (by omega)]
  rw [hrow, List.map_congr_left (fun j _ => Aentry_last cols dx hc j),
    map_const_range]

/-- Row `-1` and row `cols - 2` of the final `B` both select the appended
all-zero row. -/
theorem pyRow_B_boundary (cols : ℕ) (dx : ℚ) (hc : 2 ≤ cols) (i : ℤ)
    (hi : i = -1 ∨ i = (cols : ℤ) - 2) :
    pyRow (mkMat (cols - 1) cols (Bentry (cols - 1) cols dx)) i =
      List.replicate cols 0 := by
  have hrow : pyRow (mkMat (cols - 1) cols (Bentry (cols - 1) cols dx)) i =
      (List.range cols).map (Bentry (cols - 1) cols dx (cols - 2)) := by
    rcases hi with hi | hi
    · rw [hi, pyRow_neg_one _ _ _ (by omega),
        show cols - 1 - 1 = cols - 2 by omega]
    · rw [hi, show (cols : ℤ) - 2 = ((cols - 2 : ℕ) : ℤ) by omega,
        pyRow_natCast _ _ _ _ (by omega)]
  rw [hrow, List.map_congr_left (fun j _ => Bentry_last cols dx hc j),
    map_const_range]

/-- A qualifying distance whose resolved index is `0` or `cols - 1` and
whose local offset is zero contributes the zero vector: the `A` and `B`
rows reached (through negative indexing when the index is `0`) are the
appended zero rows, and the `delta` powers kill the `C` and `D` terms. -/
theorem contribution_boundary_zero (cols : ℕ) (Rmin dx r : ℚ) (x : List ℚ)
    (hc : 2 ≤ cols)
    (hidx : emIndex Rmin dx r = 0 ∨ emIndex Rmin dx r = (cols : ℤ) - 1)
    (hdelta : r - pyAt x (emIndex Rmin dx r) = 0) :
    contribution (spline_construction (cols - 1) cols dx).2.2.2
      (spline_construction (cols - 1) cols dx).2.2.1
      (spline_construction (cols - 1) cols dx).1
      (spline_construction (cols - 1) cols dx).2.1 x Rmin dx r =
      zeroVec cols := by
  have hi : emIndex Rmin dx r - 1 = -1 ∨
      emIndex Rmin dx r - 1 = (cols : ℤ) - 2 := by omega
  simp only [contribution, spline_construction]
  rw [hdelta, pyRow_A_boundary cols dx hc _ hi, pyRow_B_boundary cols dx hc _ hi]
  have hlenC : (pyRow (mkMat (cols - 1) cols (Centry cols))
      (emIndex Rmin dx r - 1)).length = cols :=
    pyRow_length _ _ _ _ (by omega) (by omega) (by omega)
  have hlenD : (pyRow (mkMat (cols - 1) cols (Dentry dx))
      (emIndex Rmin dx r - 1)).length = cols :=
    pyRow_length _ _ _ _ (by omega) (by omega) (by omega)
  simp only [mul_zero, zero_pow, zero_div, ne_eq, OfNat.ofNat_ne_zero,
    not_false_eq_true, zero_mul]
  rw [map_fun_zero, map_fun_zero, map_fun_zero, hlenC, hlenD,
    List.length_replicate]
  show vecAdd (vecAdd (vecAdd (zeroVec cols) (zeroVec cols)) (zeroVec cols))
      (zeroVec cols) = zeroVec cols
  rw [vecAdd_zeroVec_zeroVec, vecAdd_zeroVec_zeroVec, vecAdd_zeroVec_zeroVec]

/-- Accumulating over a list in which every element failing the filter `p`
contributes the zero vector equals accumulating over the filtered list. -/
theorem foldl_vecAdd_filter_eq (g : ℚ → List ℚ) (n : ℕ) (p : ℚ → Bool) :
    ∀ (l u : List ℚ), u.length = n →
      (∀ r ∈ l, (g r).length = n) →
      (∀ r ∈ l, p r = false → g r = zeroVec n) →
      List.foldl (fun acc r => vecAdd acc (g r)) u l =
        List.foldl (fun acc r => vecAdd acc (g r)) u (l.filter p) := by
  intro l
  induction l with
  | nil => intro u _ _ _; rfl
  | cons a t ih =>
    intro u hu hlen hzero
    cases hpa : p a with
    | true =>
      rw [List.filter_cons_of_pos hpa]
      simp only [List.foldl_cons]
      apply ih
      · rw [vecAdd_length, hu, hlen a (by simp)]
        omega
      · intro r hr
        exact hlen r (by simp [hr])
      · intro r hr hpr
        exact hzero r (by simp [hr]) hpr
    | false =>
      rw [List.filter_cons_of_neg (by simp [hpa])]
      simp only [List.foldl_cons]
      rw [hzero a (by simp) hpa, vecAdd_zeroVec_of_length u n hu]
      apply ih u hu
      · intro r hr
        exact hlen r (by simp [hr])
      · intro r hr hpr
        exact hzero r (by simp [hr]) hpr

/-- Adding componentwise on top of an accumulator that started at zero
distributes: the second summand may itself be restarted at zero. -/
theorem vecAdd_zero_start_aux (n : ℕ) :
    ∀ (u w : List ℚ), vecAdd (vecAdd (zeroVec n) u) w =
      vecAdd (vecAdd (zeroVec n) u) (vecAdd (zeroVec n) w) := by
  induction n with
  | zero => intro u w; rfl
  | succ m ih =>
    intro u w
    cases u with
    | nil => rfl
    | cons a u =>
      cases w with
      | nil => rfl
      | cons b w =>
        simp only [zeroVec, List.replicate_succ, vecAdd,
          List.zipWith_cons_cons] at *
        rw [zero_add, zero_add, ih u w]

/-! ## Claim C1 -/

/-- C1 counterexample: constructing a `Twobody` with `Rcut = 1`,
`Rmin = 2` (so `Rcut ≤ Rmin`) and `Nknots = 2 ≥ 1` succeeds — no
configuration error is raised at construction time. -/
theorem twobody_low_rcut_no_error :
    (1 : ℚ) ≤ (2 : ℚ) ∧
    isOkE (Twobody.init "X-X" [[]] 1 1 2 2 none) = true := by
  refine ⟨by norm_num, ?_⟩
  unfold Twobody.init
  rw [if_neg (by norm_num), if_neg (by norm_num),
    if_neg (fun h => absurd h.1 (by norm_num))]
  rfl

/-- C1 (amended): `Twobody.__init__` performs no cutoff validation: for
every input with `Nknots ≥ 1` and `Rcut ≠ Rmin` — in particular for every
`Rcut < Rmin`, where the claim asserts a configuration error —
construction succeeds with all derived fields (`dx`, `cols`, knot
sequence, basis matrices, `v`) computed; the only construction-time
failures are incidental arithmetic/shape errors (`Nknots = 0` division by
zero, `Nknots < 0` negative numpy dimensions, or `Rcut = Rmin` with a
distance exactly `Rmin`, hitting `0.0/0.0` at index resolution inside
`get_v`), none of them a deliberate configuration check. -/
theorem twobody_init_no_validation (name : String) (Dismat : List (List ℚ))
    (Nconfigs : ℕ) (Rcut Rmin : ℚ) (Nknots : ℤ) (Nswitch : Option ℤ)
    (h : 1 ≤ Nknots) (hne : Rcut ≠ Rmin) :
    Twobody.init name Dismat Nconfigs Rcut Nknots Rmin Nswitch =
      Except.ok (Twobody.make name Dismat Nconfigs Rcut Nknots Rmin Nswitch) ∧
    (Twobody.make name Dismat Nconfigs Rcut Nknots Rmin Nswitch).dx =
      (Rcut - Rmin) / (Nknots : ℚ) ∧
    (Twobody.make name Dismat Nconfigs Rcut Nknots Rmin Nswitch).cols =
      (Nknots + 1).toNat ∧
    (Twobody.make name Dismat Nconfigs Rcut Nknots Rmin Nswitch).interval =
      linspace Rmin Rcut (Nknots + 1).toNat ∧
    (Twobody.make name Dismat Nconfigs Rcut Nknots Rmin Nswitch).v =
      spline_energy_model Rcut Rmin Dismat (Nknots + 1).toNat
        ((Rcut - Rmin) / (Nknots : ℚ)) Nconfigs
        (linspace Rmin Rcut (Nknots + 1).toNat) := by
  refine ⟨?_, rfl, rfl, rfl, rfl⟩
  unfold Twobody.init
  rw [if_neg (by omega), if_neg (by omega), if_neg (fun hx => hne hx.1)]

/-- Witness for C1 (amended) at `Rcut = 1, Rmin = 2, Nknots = 2`. -/
theorem twobody_init_no_validation_witness :
    Twobody.init "X-X" [[]] 1 1 2 2 none =
      Except.ok (Twobody.make "X-X" [[]] 1 1 2 2 none) ∧
    (Twobody.make "X-X" [[]] 1 1 2 2 none).dx =
      ((1 : ℚ) - 2) / ((2 : ℤ) : ℚ) ∧
    (Twobody.make "X-X" [[]] 1 1 2 2 none).cols = ((2 : ℤ) + 1).toNat ∧
    (Twobody.make "X-X" [[]] 1 1 2 2 none).interval =
      linspace 2 1 ((2 : ℤ) + 1).toNat ∧
    (Twobody.make "X-X" [[]] 1 1 2 2 none).v =
      spline_energy_model 1 2 [[]] ((2 : ℤ) + 1).toNat
        (((1 : ℚ) - 2) / ((2 : ℤ) : ℚ)) 1
        (linspace 2 1 ((2 : ℤ) + 1).toNat) :=
  twobody_init_no_validation "X-X" [[]] 1 1 2 2 none (by norm_num)
    (by norm_num)

/-! ## Claim C2 -/

/-- C2 counterexample: on the grid `Rmin = 2, Rcut = 6, Nknots = 4`
(`cols = 5`), the qualifying distance `r = 2 = Rmin` resolves to index
`0`, outside `[1, cols - 1]`; `spline_energy_model` performs no bounds
check and surfaces no domain error — it indexes the basis matrices at
`-1` and returns a row regardless. -/
theorem energy_model_index_zero_no_error :
    emIndex 2 1 2 = 0 ∧ ¬(1 ≤ emIndex 2 1 2) ∧
    spline_energy_model 6 2 [[2]] 5 1 1 (linspace 2 6 5) =
      [[0, 0, 0, 0, 0]] := by
  have h0 : emIndex 2 1 2 = 0 := by
    simp only [emIndex, around5, roundHalfEven, ceil_via_floor]
    norm_num
  refine ⟨h0, by rw [h0]; omega, ?_⟩
  have hls : linspace 2 6 5 = [2, 3, 4, 5, 6] := by
    norm_num [linspace, show List.range 5 = [0, 1, 2, 3, 4] from rfl]
  have hq : qualifying 6 2 [2] = [2] := by
    unfold qualifying
    rw [List.filter_cons_of_pos]
    · rfl
    · simp only [Bool.and_eq_true, decide_eq_true_eq]
      constructor <;> norm_num
  simp only [hls, spline_energy_model, show List.range 1 = [0] from rfl,
    List.map_cons, List.map_nil, show List.getD [[(2 : ℚ)]] 0 [] = [2] from rfl,
    configRow, hq, List.foldl_cons, List.foldl_nil, h0]
  norm_num [contribution, spline_construction, mkMat, pyRow, pyAt, vecAdd,
    zeroVec, Centry, Cfill, Dentry, Braw, Bentry, Araw, Aentry,
    show List.range 4 = [0, 1, 2, 3] from rfl,
    show List.range 5 = [0, 1, 2, 3, 4] from rfl, h0,
    show ((0 : ℤ)).toNat = 0 from rfl, List.getElem_cons_zero,
    List.getElem_cons_succ,
    show List.replicate 5 (0 : ℚ) = [0, 0, 0, 0, 0] from rfl,
    List.zipWith_cons_cons]

/-- C2 (amended): `spline_energy_model` has no bounds check on the
resolved segment index: at `r = Rmin` the index is `0`, outside
`[1, cols - 1]`, and instead of a domain error the accumulation proceeds —
`A[index - 1]` and `B[index - 1]` select, via Python negative indexing,
the appended all-zero last rows, `delta = 0` kills the `C` and `D` terms,
and the distance contributes the zero vector. -/
theorem energy_model_no_bounds_check (Rmin dx : ℚ) (cols : ℕ) (x : List ℚ)
    (hc : 2 ≤ cols) (hx : x.getD 0 0 = Rmin) :
    emIndex Rmin dx Rmin = 0 ∧ ¬(1 ≤ emIndex Rmin dx Rmin) ∧
    contribution (spline_construction (cols - 1) cols dx).2.2.2
      (spline_construction (cols - 1) cols dx).2.2.1
      (spline_construction (cols - 1) cols dx).1
      (spline_construction (cols - 1) cols dx).2.1 x Rmin dx Rmin =
      zeroVec cols := by
  refine ⟨emIndex_at_Rmin Rmin dx, by rw [emIndex_at_Rmin]; omega, ?_⟩
  apply contribution_boundary_zero cols Rmin dx Rmin x hc
  · exact Or.inl (emIndex_at_Rmin Rmin dx)
  · rw [emIndex_at_Rmin]
    show Rmin - pyAt x 0 = 0
    unfold pyAt
    rw [if_pos le_rfl, show (0 : ℤ).toNat = 0 from rfl, hx, sub_self]

/-- Witness for C2 (amended) on the concrete grid of the spec scenario. -/
theorem energy_model_no_bounds_check_witness :
    emIndex 2 1 2 = 0 ∧ ¬(1 ≤ emIndex 2 1 2) ∧
    contribution (spline_construction (5 - 1) 5 1).2.2.2
      (spline_construction (5 - 1) 5 1).2.2.1
      (spline_construction (5 - 1) 5 1).1
      (spline_construction (5 - 1) 5 1).2.1 [2, 3, 4, 5, 6] 2 1 2 =
      zeroVec 5 :=
  energy_model_no_bounds_check 2 1 5 [2, 3, 4, 5, 6] (by norm_num) rfl

/-! ## Claim C3 -/

/-- C3 counterexample: the evaluator `spline_eval012` takes the plain
ceiling with no 5-decimal rounding: at `Rmin = 0, dx = 1,
r = 1.000001` the source resolves index `⌈1.000001⌉ = 2` while the
claimed rule (round the quotient to 5 decimals, then ceiling) yields `1`. -/
theorem evalIndex_rounding_mismatch :
    evalIndex 0 1 (1000001 / 1000000) = 2 ∧
    evalIndexSpec 0 1 (1000001 / 1000000) = 1 ∧
    evalIndex 0 1 (1000001 / 1000000) ≠ evalIndexSpec 0 1 (1000001 / 1000000) := by
  have h1 : evalIndex 0 1 (1000001 / 1000000) = 2 := by
    simp only [evalIndex, ceil_via_floor]
    rw [if_neg (by norm_num)]
    norm_num
  have h2 : evalIndexSpec 0 1 (1000001 / 1000000) = 1 := by
    simp only [evalIndexSpec, around5, roundHalfEven, ceil_via_floor]
    rw [if_neg (by norm_num)]
    norm_num
  exact ⟨h1, h2, by rw [h1, h2]; norm_num⟩

/-- C3 (amended): in `spline_eval012` the segment index is `1` when
`r = Rmin` and otherwise the plain ceiling `⌈(r - Rmin)/dx⌉` with no
decimal rounding (the 5-decimal rounding exists only in
`spline_energy_model`); for a query exactly on knot `x[k]` (`k ≥ 1`,
evenly spaced knots, exact arithmetic) the resolved index is `k` and the
local offset `dr = r - x[index]` is `0`. -/
theorem evalIndex_knot_resolution (Rmin dx : ℚ) (x : ℕ → ℚ) (k : ℕ)
    (hdx : 0 < dx) (hk : 1 ≤ k) (hx : ∀ i, x i = Rmin + (i : ℚ) * dx) :
    evalIndex Rmin dx (x k) = (k : ℤ) ∧
    x k - x (evalIndex Rmin dx (x k)).toNat = 0 := by
  have h1 : evalIndex Rmin dx (x k) = (k : ℤ) := by
    rw [hx k]
    exact evalIndex_at_knot Rmin dx k hdx hk
  exact ⟨h1, by rw [h1, Int.toNat_natCast, sub_self]⟩

/-- Witness for C3 (amended): grid `Rmin = 2, dx = 1`, knot `k = 3`. -/
theorem evalIndex_knot_resolution_witness :
    evalIndex 2 1 ((fun i : ℕ => 2 + (i : ℚ) * 1) 3) = ((3 : ℕ) : ℤ) ∧
    (fun i : ℕ => 2 + (i : ℚ) * 1) 3 -
      (fun i : ℕ => 2 + (i : ℚ) * 1)
        (evalIndex 2 1 ((fun i : ℕ => 2 + (i : ℚ) * 1) 3)).toNat = 0 :=
  evalIndex_knot_resolution 2 1 (fun i : ℕ => 2 + (i : ℚ) * 1) 3
    (by norm_num) (by norm_num) (fun i => rfl)

/-! ## Claim C4 -/

/-- C4: `spline_eval012` raises `ValueError(' r < Rmin')` exactly when
`r < Rmin` (with `dx > 0`); for every `r ≥ Rmin` — in particular
throughout `[Rmin, Rcut]` — it returns a
(value, first derivative, second derivative) triple without raising. -/
theorem eval_domain_error_iff (a b c d : ℕ → ℚ) (r Rcut Rmin dx : ℚ)
    (x : ℕ → ℚ) (hdx : 0 < dx) :
    (spline_eval012 a b c d r Rcut Rmin dx x = Except.error " r < Rmin" ↔
      r < Rmin) ∧
    (isOkE (spline_eval012 a b c d r Rcut Rmin dx x) = true ↔ Rmin ≤ r) := by
  have hidx : 1 ≤ evalIndex Rmin dx r ↔ Rmin ≤ r := by
    unfold evalIndex
    by_cases hr : r = Rmin
    · simp [hr]
    · rw [if_neg hr]
      have key : (0 : ℚ) < (r - Rmin) / dx ↔ Rmin < r := by
        rw [lt_div_iff₀ hdx]
        constructor <;> intro h <;> linarith
      constructor
      · intro h
        have h0 : ((0 : ℤ) : ℚ) < (r - Rmin) / dx := Int.lt_ceil.mp (by omega)
        have := key.mp (by exact_mod_cast h0)
        linarith
      · intro h
        have hlt : Rmin < r := lt_of_le_of_ne h (Ne.symm hr)
        have h0 : ((0 : ℤ) : ℚ) < (r - Rmin) / dx := by
          exact_mod_cast key.mpr hlt
        have := Int.lt_ceil.mpr h0
        omega
  simp only [spline_eval012]
  rcases lt_or_le r Rmin with hr | hr
  · rw [if_neg (by rw [hidx]; linarith)]
    exact ⟨iff_of_true rfl hr,
      iff_of_false (by simp [isOkE]) (by linarith)⟩
  · rw [if_pos (hidx.mpr hr)]
    exact ⟨iff_of_false (by simp) (by linarith), iff_of_true rfl hr⟩

/-- Witness for C4 at `Rmin = 2, dx = 1, r = 3`. -/
theorem eval_domain_error_iff_witness :
    (spline_eval012 (fun _ => 10) (fun _ => 20) (fun _ => 30) (fun _ => 40)
        3 6 2 1 (fun i => 2 + (i : ℚ)) = Except.error " r < Rmin" ↔
      (3 : ℚ) < 2) ∧
    (isOkE (spline_eval012 (fun _ => 10) (fun _ => 20) (fun _ => 30)
        (fun _ => 40) 3 6 2 1 (fun i => 2 + (i : ℚ))) = true ↔ (2 : ℚ) ≤ 3) :=
  eval_domain_error_iff (fun _ => 10) (fun _ => 20) (fun _ => 30)
    (fun _ => 40) 3 6 2 1 (fun i => 2 + (i : ℚ)) (by norm_num)

/-! ## Claim C5 -/

/-- C5: concrete grid `Rmin = 2, Rcut = 6, Nknots = 4`: `dx = 1`,
`cols = 5`, knots `[2,3,4,5,6]`, all four basis matrices of shape
`(4, 5)`; the lone qualifying distance `r = 3.5` resolves to `index = 2`
with `delta = 3.5 - x[2] = -0.5`, and the design-matrix row is exactly
`A[1] + B[1]*(-0.5) + C[1]*0.125 + D[1]*(-0.125/6)` with the matrices
from `spline_construction(4, 5, 1.0)`. -/
theorem concrete_grid_scenario :
    (Twobody.make "X-X" [[7/2]] 1 6 4 2 none).dx = 1 ∧
    (Twobody.make "X-X" [[7/2]] 1 6 4 2 none).cols = 5 ∧
    (Twobody.make "X-X" [[7/2]] 1 6 4 2 none).interval = [2, 3, 4, 5, 6] ∧
    (spline_construction 4 5 1).1.map List.length = [5, 5, 5, 5] ∧
    (spline_construction 4 5 1).2.1.map List.length = [5, 5, 5, 5] ∧
    (spline_construction 4 5 1).2.2.1.map List.length = [5, 5, 5, 5] ∧
    (spline_construction 4 5 1).2.2.2.map List.length = [5, 5, 5, 5] ∧
    emIndex 2 1 (7/2) = 2 ∧
    (7/2 : ℚ) - [(2 : ℚ), 3, 4, 5, 6].getD 2 0 = -(1/2) ∧
    spline_energy_model 6 2 [[7/2]] 5 1 1 [2, 3, 4, 5, 6] =
      [vecAdd (vecAdd (vecAdd (pyRow (spline_construction 4 5 1).2.2.2 1)
          ((pyRow (spline_construction 4 5 1).2.2.1 1).map fun q => q * (-(1/2))))
          ((pyRow (spline_construction 4 5 1).1 1).map fun q => q * (1/8)))
        ((pyRow (spline_construction 4 5 1).2.1 1).map fun q => q * (-(1/8) / 6))] := by
  have hidx : emIndex 2 1 (7/2) = 2 := by
    simp only [emIndex, around5, roundHalfEven, ceil_via_floor]
    norm_num
  have hLHS : spline_energy_model 6 2 [[7/2]] 5 1 1 [2, 3, 4, 5, 6] =
      [[0, 1/48, 25/48, 3/2, 13/12]] := by
    have hq : qualifying 6 2 [7/2] = [7/2] := by
      unfold qualifying
      rw [List.filter_cons_of_pos]
      · rfl
      · simp only [Bool.and_eq_true, decide_eq_true_eq]
        constructor <;> norm_num
    simp only [spline_energy_model, show List.range 1 = [0] from rfl,
      List.map_cons, List.map_nil,
      show List.getD [[(7 : ℚ)/2]] 0 [] = [7/2] from rfl,
      configRow, hq, List.foldl_cons, List.foldl_nil, hidx]
    norm_num [contribution, spline_construction, mkMat, pyRow, pyAt, vecAdd,
      zeroVec, Centry, Cfill, Dentry, Braw, Bentry, Araw, Aentry,
      show List.range 4 = [0, 1, 2, 3] from rfl,
      show List.range 5 = [0, 1, 2, 3, 4] from rfl, hidx,
      show (2 : ℤ).toNat = 2 from rfl, List.getElem_cons_zero,
      List.getElem_cons_succ,
      show List.replicate 5 (0 : ℚ) = [0, 0, 0, 0, 0] from rfl,
      List.zipWith_cons_cons]
  have hRHS : vecAdd (vecAdd (vecAdd (pyRow (spline_construction 4 5 1).2.2.2 1)
        ((pyRow (spline_construction 4 5 1).2.2.1 1).map fun q => q * (-(1/2))))
        ((pyRow (spline_construction 4 5 1).1 1).map fun q => q * (1/8)))
      ((pyRow (spline_construction 4 5 1).2.1 1).map fun q => q * (-(1/8) / 6)) =
      [0, 1/48, 25/48, 3/2, 13/12] := by
    norm_num [spline_construction, mkMat, pyRow, vecAdd,
      Centry, Cfill, Dentry, Braw, Bentry, Araw, Aentry,
      show List.range 4 = [0, 1, 2, 3] from rfl,
      show List.range 5 = [0, 1, 2, 3, 4] from rfl,
      show (1 : ℤ).toNat = 1 from rfl, List.zipWith_cons_cons]
  refine ⟨by norm_num [Twobody.make], rfl, ?_, rfl, rfl, rfl, rfl, hidx,
    by norm_num, by rw [hLHS, hRHS]⟩
  have hproj : (Twobody.make "X-X" [[7/2]] 1 6 4 2 none).interval =
      linspace 2 6 5 := rfl
  rw [hproj]
  norm_num [linspace, show List.range 5 = [0, 1, 2, 3, 4] from rfl]

/-! ## Claim C6 -/

/-- C6: for every knot index `k` with `1 ≤ k ≤ Nknots`, evaluating
`spline_eval012` at `r = x[k]` on the evenly spaced knot grid (exact
arithmetic, so the resolved index is `k` and `dr = 0`) returns exactly
`(a[k-1], b[k-1], c[k-1])`. -/
theorem eval_at_boundary_knot (a b c d : ℕ → ℚ) (Rcut Rmin dx : ℚ)
    (Nknots k : ℕ) (hdx : 0 < dx) (hk : 1 ≤ k) (hkN : k ≤ Nknots) :
    spline_eval012 a b c d (Rmin + (k : ℚ) * dx) Rcut Rmin dx
      (fun i => Rmin + (i : ℚ) * dx) =
      Except.ok (a (k - 1), b (k - 1), c (k - 1)) := by
  have h1 := evalIndex_at_knot Rmin dx k hdx hk
  simp only [spline_eval012, h1]
  rw [if_pos (by exact_mod_cast hk)]
  simp

/-- Witness for C6 on the grid `Rmin = 2, dx = 1, Nknots = 4` at `k = 3`. -/
theorem eval_at_boundary_knot_witness :
    spline_eval012 (fun _ => 10) (fun _ => 20) (fun _ => 30) (fun _ => 40)
      (2 + ((3 : ℕ) : ℚ) * 1) 6 2 1 (fun i => 2 + (i : ℚ) * 1) =
      Except.ok (10, 20, 30) :=
  eval_at_boundary_knot (fun _ => 10) (fun _ => 20) (fun _ => 30)
    (fun _ => 40) 6 2 1 4 3 (by norm_num) (by norm_num) (by norm_num)

/-! ## Claim C7 -/

/-- C7: additivity of design-matrix rows: for any grid and any two
distances `r1, r2` both within `[Rmin, Rcut]`, the row
`spline_energy_model` produces for a configuration containing
`{r1, r2}` equals the elementwise sum of the rows it produces for the
singleton configurations `{r1}` and `{r2}`. -/
theorem row_additivity (Rcut Rmin dx : ℚ) (cols : ℕ) (x : List ℚ) (r1 r2 : ℚ)
    (h1a : Rmin ≤ r1) (h1b : r1 ≤ Rcut) (h2a : Rmin ≤ r2) (h2b : r2 ≤ Rcut) :
    spline_energy_model Rcut Rmin [[r1, r2]] cols dx 1 x =
      [vecAdd ((spline_energy_model Rcut Rmin [[r1]] cols dx 1 x).getD 0 [])
        ((spline_energy_model Rcut Rmin [[r2]] cols dx 1 x).getD 0 [])] := by
  have hf12 : qualifying Rcut Rmin [r1, r2] = [r1, r2] := by
    unfold qualifying
    rw [List.filter_cons_of_pos
        (by simp only [Bool.and_eq_true, decide_eq_true_eq]; exact ⟨h1b, h1a⟩),
      List.filter_cons_of_pos
        (by simp only [Bool.and_eq_true, decide_eq_true_eq]; exact ⟨h2b, h2a⟩)]
    rfl
  have hf1 : qualifying Rcut Rmin [r1] = [r1] := by
    unfold qualifying
    rw [List.filter_cons_of_pos
        (by simp only [Bool.and_eq_true, decide_eq_true_eq]; exact ⟨h1b, h1a⟩)]
    rfl
  have hf2 : qualifying Rcut Rmin [r2] = [r2] := by
    unfold qualifying
    rw [List.filter_cons_of_pos
        (by simp only [Bool.and_eq_true, decide_eq_true_eq]; exact ⟨h2b, h2a⟩)]
    rfl
  simp only [spline_energy_model, show List.range 1 = [0] from rfl,
    List.map_cons, List.map_nil, List.getD_cons_zero,
    configRow, hf12, hf1, hf2, List.foldl_cons, List.foldl_nil]
  congr 1
  exact vecAdd_zero_start_aux cols _ _

/-- Witness for C7 on the concrete grid at `r1 = 3, r2 = 3.5`. -/
theorem row_additivity_witness :
    spline_energy_model 6 2 [[3, 7/2]] 5 1 1 [2, 3, 4, 5, 6] =
      [vecAdd ((spline_energy_model 6 2 [[3]] 5 1 1 [2, 3, 4, 5, 6]).getD 0 [])
        ((spline_energy_model 6 2 [[7/2]] 5 1 1 [2, 3, 4, 5, 6]).getD 0 [])] :=
  row_additivity 6 2 1 5 [2, 3, 4, 5, 6] 3 (7/2) (by norm_num) (by norm_num)
    (by norm_num) (by norm_num)

/-! ## Claim C8 -/

/-- C8: a configuration whose raw distance list contains no value inside
`[Rmin, Rcut]` produces the all-zero design-matrix row of length `cols`. -/
theorem empty_qualifying_zero_row (Rcut Rmin dx : ℚ) (df : List (List ℚ))
    (cols size config : ℕ) (x : List ℚ) (hc : config < size)
    (hnone : ∀ r ∈ df.getD config [], ¬(Rmin ≤ r ∧ r ≤ Rcut)) :
    (spline_energy_model Rcut Rmin df cols dx size x).getD config [] =
      List.replicate cols 0 := by
  simp only [spline_energy_model]
  rw [List.getD_eq_getElem?_getD, List.getElem?_map, List.getElem?_range hc]
  have hq : qualifying Rcut Rmin (df.getD config []) = [] := by
    unfold qualifying
    rw [List.filter_eq_nil]
    intro a ha
    simp only [Bool.and_eq_true, decide_eq_true_eq]
    exact fun h => hnone a ha ⟨h.2, h.1⟩
  simp only [Option.map_some', Option.getD_some, configRow, hq, List.foldl_nil]
  rfl

/-- Witness for C8: distances `1` and `7` both fall outside `[2, 6]`. -/
theorem empty_qualifying_zero_row_witness :
    (spline_energy_model 6 2 [[1, 7]] 5 1 1 [2, 3, 4, 5, 6]).getD 0 [] =
      List.replicate 5 0 :=
  empty_qualifying_zero_row 6 2 1 [[1, 7]] 5 1 0 [2, 3, 4, 5, 6] (by norm_num)
    (by
      intro r hr
      simp only [List.getD_cons_zero, List.mem_cons, List.not_mem_nil,
        or_false] at hr
      rcases hr with rfl | rfl <;> norm_num)

/-! ## Claim C9 -/

theorem sum_map_range (n : ℕ) (f : ℕ → ℚ) :
    ((List.range n).map f).sum = ∑ j ∈ Finset.range n, f j := by
  induction n with
  | zero => simp
  | succ m ih =>
    rw [List.range_succ, List.map_append, List.sum_append,
      Finset.sum_range_succ, ih]
    simp

/-- Every row of `D` sums to zero: the `-1/dx` on the diagonal cancels
the `+1/dx` on the first super-diagonal. -/
theorem Drow_sum_zero (cols : ℕ) (dx : ℚ) (i : ℕ) (hi : i + 1 < cols) :
    ((List.range cols).map (Dentry dx i)).sum = 0 := by
  rw [sum_map_range]
  have hsplit : ∀ j ∈ Finset.range cols, Dentry dx i j =
      (if i = j then (-1 : ℚ) else 0) / dx +
        (if j = i + 1 then (1 : ℚ) else 0) / dx := by
    intro j _
    unfold Dentry
    split_ifs <;> first | (exfalso; omega) | simp [zero_div]
  rw [Finset.sum_congr rfl hsplit, Finset.sum_add_distrib,
    ← Finset.sum_div, ← Finset.sum_div,
    Finset.sum_ite_eq (Finset.range cols) i (fun _ => (-1 : ℚ)),
    Finset.sum_ite_eq' (Finset.range cols) (i + 1) (fun _ => (1 : ℚ)),
    if_pos (Finset.mem_range.mpr (by omega)),
    if_pos (Finset.mem_range.mpr hi)]
  ring

theorem mkMat_map_length (rows cols : ℕ) (f : ℕ → ℕ → ℚ) :
    (mkMat rows cols f).map List.length = List.replicate rows cols := by
  unfold mkMat
  rw [List.map_map]
  have h : (List.length ∘ fun i => (List.range cols).map (f i)) =
      fun _ => cols := by
    funext i
    simp
  rw [h, map_const_range]

theorem mkMat_congr (rows cols : ℕ) (f g : ℕ → ℕ → ℚ)
    (h : ∀ i, i < rows → ∀ j, j < cols → f i j = g i j) :
    mkMat rows cols f = mkMat rows cols g := by
  unfold mkMat
  apply List.map_congr_left
  intro i hi
  apply List.map_congr_left
  intro j hj
  exact h i (List.mem_range.mp hi) j (List.mem_range.mp hj)

/-- The rolled shifted-diagonal `C` is the band matrix with ones exactly
at the positions `(j - 1, j)`, `j = 1..cols-1`. -/
theorem Centry_band (rows cols : ℕ) (hc : cols = rows + 1) (i j : ℕ)
    (hi : i < rows) (hj : j < cols) :
    Centry cols i j = if j = i + 1 then 1 else 0 := by
  unfold Centry Cfill
  rcases Nat.eq_zero_or_pos j with hj0 | hjpos
  · subst hj0
    rw [show 0 + cols - 1 = cols - 1 by omega, Nat.mod_eq_of_lt (by omega),
      if_neg (by omega), if_neg (by omega)]
  · rw [show j + cols - 1 = (j - 1) + cols by omega, Nat.add_mod_right,
      Nat.mod_eq_of_lt (by omega)]
    split_ifs <;> first | rfl | (exfalso; omega)

/-- C9: for every `rows ≥ 1`, `cols = rows + 1` and `dx > 0`,
`spline_construction` returns four matrices of shape `(rows, cols)`;
`C` is exactly the band matrix with ones at `(j-1, j)` for
`j = 1..cols-1`; and every row of `D` sums to `0`. -/
theorem construction_shape_and_bands (rows cols : ℕ) (dx : ℚ)
    (hr : 1 ≤ rows) (hc : cols = rows + 1) (hdx : 0 < dx) :
    (spline_construction rows cols dx).1.map List.length =
      List.replicate rows cols ∧
    (spline_construction rows cols dx).2.1.map List.length =
      List.replicate rows cols ∧
    (spline_construction rows cols dx).2.2.1.map List.length =
      List.replicate rows cols ∧
    (spline_construction rows cols dx).2.2.2.map List.length =
      List.replicate rows cols ∧
    (spline_construction rows cols dx).1 =
      mkMat rows cols (fun i j => if j = i + 1 then 1 else 0) ∧
    (spline_construction rows cols dx).2.1.map List.sum =
      List.replicate rows 0 := by
  refine ⟨mkMat_map_length rows cols _, mkMat_map_length rows cols _,
    mkMat_map_length rows cols _, mkMat_map_length rows cols _, ?_, ?_⟩
  · exact mkMat_congr rows cols _ _
      (fun i hi j hj => Centry_band rows cols hc i j hi hj)
  · show (mkMat rows cols (Dentry dx)).map List.sum = List.replicate rows 0
    unfold mkMat
    rw [List.map_map]
    have h : ∀ i ∈ List.range rows,
        (List.sum ∘ fun i => (List.range cols).map (Dentry dx i)) i =
          (fun _ => (0 : ℚ)) i := by
      intro i hi
      exact Drow_sum_zero cols dx i
        (by have := List.mem_range.mp hi; omega)
    rw [List.map_congr_left h, map_const_range]

/-- Witness for C9 at `rows = 4, cols = 5, dx = 1`. -/
theorem construction_shape_and_bands_witness :
    (spline_construction 4 5 1).1.map List.length = List.replicate 4 5 ∧
    (spline_construction 4 5 1).2.1.map List.length = List.replicate 4 5 ∧
    (spline_construction 4 5 1).2.2.1.map List.length = List.replicate 4 5 ∧
    (spline_construction 4 5 1).2.2.2.map List.length = List.replicate 4 5 ∧
    (spline_construction 4 5 1).1 =
      mkMat 4 5 (fun i j => if j = i + 1 then 1 else 0) ∧
    (spline_construction 4 5 1).2.1.map List.sum = List.replicate 4 0 :=
  construction_shape_and_bands 4 5 1 (by norm_num) rfl (by norm_num)

/-! ## Claim C10 -/

theorem linspace_getD_zero (a b : ℚ) (num : ℕ) (h : 0 < num) :
    (linspace a b num).getD 0 0 = a := by
  unfold linspace
  rw [List.getD_eq_getElem?_getD, List.getElem?_map, List.getElem?_range h]
  simp

theorem linspace_getD_last (a b : ℚ) (N : ℕ) (hN : 1 ≤ N) :
    (linspace a b (N + 1)).getD N 0 = b := by
  unfold linspace
  rw [List.getD_eq_getElem?_getD, List.getElem?_map,
    List.getElem?_range (by omega)]
  simp only [Option.map_some', Option.getD_some]
  have hcast : ((N + 1 : ℕ) : ℚ) - 1 = (N : ℚ) := by push_cast; ring
  have hN0 : (N : ℚ) ≠ 0 := by
    have h0 : (0 : ℚ) < (N : ℚ) := by exact_mod_cast hN
    linarith
  rw [hcast, mul_comm ((N : ℚ)) ((b - a) / (N : ℚ)),
    div_mul_cancel₀ _ hN0]
  ring

/-- Every contribution of a qualifying distance is a vector of length
`cols`: the resolved index stays within `[0, cols - 1]`, so `index - 1`
reaches an existing matrix row (possibly through negative indexing). -/
theorem contribution_length (cols : ℕ) (Rcut Rmin dx r : ℚ) (x : List ℚ)
    (hc : 2 ≤ cols) (hdx : 0 < dx) (h1 : Rmin ≤ r)
    (h2 : r - Rmin ≤ ((cols : ℚ) - 1) * dx) :
    (contribution (spline_construction (cols - 1) cols dx).2.2.2
      (spline_construction (cols - 1) cols dx).2.2.1
      (spline_construction (cols - 1) cols dx).1
      (spline_construction (cols - 1) cols dx).2.1 x Rmin dx r).length =
      cols := by
  have hge : 0 ≤ emIndex Rmin dx r := emIndex_nonneg Rmin dx r hdx h1
  have hle : emIndex Rmin dx r ≤ (cols : ℤ) - 1 := by
    have hcast : ((cols - 1 : ℕ) : ℚ) = (cols : ℚ) - 1 := by
      rw [Nat.cast_sub (show 1 ≤ cols by omega)]
      norm_num
    have h3 : r - Rmin ≤ ((cols - 1 : ℕ) : ℚ) * dx := by rw [hcast]; exact h2
    have := emIndex_le Rmin dx r (cols - 1) hdx h3
    omega
  simp only [contribution, spline_construction]
  rw [vecAdd_length, vecAdd_length, vecAdd_length,
    List.length_map, List.length_map, List.length_map,
    pyRow_length _ _ _ _ (by omega) (by omega) (by omega),
    pyRow_length _ _ _ _ (by omega) (by omega) (by omega),
    pyRow_length _ _ _ _ (by omega) (by omega) (by omega),
    pyRow_length _ _ _ _ (by omega) (by omega) (by omega)]
  omega

theorem getD_map_filter (df : List (List ℚ)) (p : ℚ → Bool) (c : ℕ) :
    (df.map (List.filter p)).getD c [] = (df.getD c []).filter p := by
  rw [List.getD_eq_getElem?_getD, List.getD_eq_getElem?_getD,
    List.getElem?_map]
  rcases lt_or_le c df.length with h | h
  · rw [List.getElem?_eq_getElem h]
    simp
  · rw [List.getElem?_eq_none (by simpa using h)]
    rfl

theorem qualifying_filter_comm (Rcut Rmin : ℚ) (p : ℚ → Bool) (l : List ℚ) :
    qualifying Rcut Rmin (l.filter p) = (qualifying Rcut Rmin l).filter p := by
  unfold qualifying
  rw [List.filter_filter, List.filter_filter]
  apply List.filter_congr
  intro a _
  exact Bool.and_comm _ _

/-- C10: a distance exactly equal to `Rmin` or `Rcut` passes the
inclusive filter but contributes the zero vector — at `r = Rmin` the
resolved index is `0` and `A[-1]`, `B[-1]` (negative indexing) are the
appended zero rows with `delta = 0`; at `r = Rcut` the index is
`cols - 1`, selecting those same appended zero rows directly, again with
`delta = 0` — so the design matrix equals the one computed with all
exact-boundary distances removed. -/
theorem boundary_distances_contribute_zero (Rcut Rmin dx : ℚ) (Nknots : ℕ)
    (df : List (List ℚ)) (size : ℕ) (hdx : 0 < dx) (hN : 1 ≤ Nknots)
    (hgrid : Rcut - Rmin = (Nknots : ℚ) * dx) :
    emIndex Rmin dx Rmin = 0 ∧
    emIndex Rmin dx Rcut = (Nknots : ℤ) ∧
    spline_energy_model Rcut Rmin df (Nknots + 1) dx size
        (linspace Rmin Rcut (Nknots + 1)) =
      spline_energy_model Rcut Rmin
        (df.map (List.filter fun r => decide (r ≠ Rmin ∧ r ≠ Rcut)))
        (Nknots + 1) dx size (linspace Rmin Rcut (Nknots + 1)) := by
  have hRc : Rcut = Rmin + (Nknots : ℚ) * dx := by linarith
  have hidx0 : emIndex Rmin dx Rmin = 0 := emIndex_at_Rmin Rmin dx
  have hidxN : emIndex Rmin dx Rcut = (Nknots : ℤ) := by
    rw [hRc]
    exact emIndex_at_knot Rmin dx Nknots (ne_of_gt hdx)
  refine ⟨hidx0, hidxN, ?_⟩
  simp only [spline_energy_model]
  apply List.map_congr_left
  intro config _
  rw [getD_map_filter]
  simp only [configRow]
  rw [qualifying_filter_comm]
  refine foldl_vecAdd_filter_eq _ (Nknots + 1) _
    (qualifying Rcut Rmin (df.getD config [])) (zeroVec (Nknots + 1))
    (by simp [zeroVec]) ?_ ?_
  · intro r hr
    simp only [qualifying] at hr
    have hq := (List.mem_filter.mp hr).2
    simp only [Bool.and_eq_true, decide_eq_true_eq] at hq
    apply contribution_length (Nknots + 1) Rcut Rmin dx r _ (by omega) hdx hq.2
    have hcast : ((Nknots + 1 : ℕ) : ℚ) - 1 = (Nknots : ℚ) := by
      push_cast
      ring
    rw [hcast]
    have := hq.1
    linarith
  · intro r hr hpr
    have hbd : r = Rmin ∨ r = Rcut := by
      simp only [decide_eq_false_iff_not, not_and, not_not] at hpr
      by_cases hrm : r = Rmin
      · exact Or.inl hrm
      · exact Or.inr (hpr hrm)
    rcases hbd with rfl | rfl
    · apply contribution_boundary_zero (Nknots + 1) r dx r _ (by omega)
        (Or.inl hidx0)
      rw [hidx0]
      show r - pyAt (linspace r Rcut (Nknots + 1)) 0 = 0
      unfold pyAt
      rw [if_pos le_rfl, show (0 : ℤ).toNat = 0 from rfl,
        linspace_getD_zero r Rcut (Nknots + 1) (by omega), sub_self]
    · apply contribution_boundary_zero (Nknots + 1) Rmin dx r _ (by omega)
        (Or.inr (by rw [hidxN]; push_cast; ring))
      rw [hidxN]
      show r - pyAt (linspace Rmin r (Nknots + 1)) ((Nknots : ℤ)) = 0
      unfold pyAt
      rw [if_pos (Int.natCast_nonneg _), Int.toNat_natCast,
        linspace_getD_last Rmin r Nknots hN, sub_self]

/-- Witness for C10 on the grid `Rmin = 2, Rcut = 6, Nknots = 4` with a
configuration containing both boundary distances. -/
theorem boundary_distances_contribute_zero_witness :
    emIndex 2 1 2 = 0 ∧
    emIndex 2 1 6 = ((4 : ℕ) : ℤ) ∧
    spline_energy_model 6 2 [[2, 3, 6]] (4 + 1) 1 1
        (linspace 2 6 (4 + 1)) =
      spline_energy_model 6 2
        ([[2, 3, 6]].map (List.filter fun r => decide (r ≠ 2 ∧ r ≠ 6)))
        (4 + 1) 1 1 (linspace 2 6 (4 + 1)) :=
  boundary_distances_contribute_zero 6 2 1 4 [[2, 3, 6]] 1 (by norm_num)
    (by norm_num) (by norm_num)

end CCS
